import Mathlib

/-!
Shallow embedding of the `bencoding` crate (src/lib.rs, src/error.rs).

The Rust decoder reads from an `io::Read` stream.  We model the stream as the
list of bytes still to be read (`List Nat`, each entry a byte value) and every
decoding function returns either a decoded result together with the remaining
bytes, a `DecodeError`, or `panic` (the Rust code can reach `.unwrap()` on a
failed integer parse, which aborts instead of returning an error).
Characters are the bytes themselves (`char::from(u8)` is the identity on
ASCII codes); ASCII constants used below: '0' = 48, '9' = 57, ':' = 58,
'-' = 45, '+' = 43, 'e' = 101, 'i' = 105, 'l' = 108, 'd' = 100.
-/

/-- Byte sequences: reader contents and `Vec<u8>` values. -/
abbrev Bytes := List Nat

/-- `Bencoding` value model (enum `Bencoding` in src/lib.rs).  The Rust
`HashMap<Vec<u8>, Bencoding>` is modelled as an association list without
duplicate keys; `dictInsert` below mirrors `HashMap::insert`. -/
inductive Bencoding where
  | String (s : List Nat)
  | Integer (i : Int)
  | List (l : List Bencoding)
  | Dictionary (d : List (List Nat × Bencoding))

/-- Enum `DecodeError` in src/error.rs.  The I/O variant is `IOFailure` here
(named `IO` in the source); its payload (the underlying `std::io::Error`) is
dropped: every I/O failure collapses to that single kind. -/
inductive DecodeError where
  | IOFailure
  | UnknownSymbol (c : Nat)
  | LeadingZeroInteger
  | NegativeZeroInteger
  | InvalidNumberInteger (c : Nat)
  | KeyNotStringDictionary (b : Bencoding)

/-- Internal enum `DecodeTypes` in src/lib.rs: either a decoded value or the
end-marker sentinel. -/
inductive DecodeTypes where
  | Bencoding (b : Bencoding)
  | EndMarker

/-- Outcome of running a decoding function on the remaining input: a result
plus the bytes left unread, a `DecodeError`, or a Rust panic. -/
inductive DOut (α : Type) where
  | ok (a : α) (rest : List Nat)
  | err (e : DecodeError)
  | panic

/-- `Result` plumbing (`?` operator) lifted to `DOut`: map the success value,
propagate errors and panics. -/
def DOut.map {α β : Type} (f : α → β) : DOut α → DOut β
  | .ok a rest => .ok (f a) rest
  | .err e => .err e
  | .panic => .panic

/-- The `'0'...'9'` range pattern on a byte read as a char. -/
def isDigitByte (c : Nat) : Bool := 48 ≤ c && c ≤ 57

/-- Numeric value of a list of ASCII digit bytes, most significant first. -/
def digitsVal (ds : List Nat) : Nat := ds.foldl (fun a c => a * 10 + (c - 48)) 0

/-- Model of `str::parse::<usize>()` for the digit strings the length loop
builds: succeeds exactly on non-empty all-digit text whose value fits in
64 bits (the code comments that the parse "Can fail only if value is too
big"). -/
def parseUsize (ds : List Nat) : Option Nat :=
  if ds.isEmpty then none
  else if ds.all isDigitByte then
    if digitsVal ds < 2 ^ 64 then some (digitsVal ds) else none
  else none

/-- Model of `str::parse::<i64>()`: an optional `+`/`-` sign followed by at
least one digit, value within the `i64` range; anything else fails (and the
caller's `.unwrap()` then panics). -/
def parseI64 (text : List Nat) : Option Int :=
  match text with
  | [] => none
  | c :: rest =>
    let signed : Bool × List Nat :=
      if c = 45 then (true, rest) else if c = 43 then (false, rest) else (false, c :: rest)
    if signed.2.isEmpty then none
    else if signed.2.all isDigitByte then
      let v : Int := if signed.1 then -(digitsVal signed.2 : Int) else (digitsVal signed.2 : Int)
      if -(2 ^ 63) ≤ v ∧ v ≤ 2 ^ 63 - 1 then some v else none
    else none

/-- The `loop` in `decode_string`: push digit chars onto the length text until
a `:` is read; any other char is an invalid-number error; end of input is an
I/O failure of `read_to_u8`. -/
def decode_string_loop (acc : List Nat) : List Nat → DOut (List Nat)
  | [] => .err DecodeError.IOFailure
  | c :: rest =>
    if isDigitByte c then decode_string_loop (acc ++ [c]) rest
    else if c = 58 then .ok acc rest
    else .err (DecodeError.InvalidNumberInteger c)

/-- `decode_string` in src/lib.rs: `first_char` (already consumed by the
dispatcher) seeds the length text; after the `:` the parsed length `n` is
read exactly (`read_exact` fails with an I/O error when fewer than `n` bytes
remain). -/
def decode_string (first_char : Nat) (input : List Nat) : DOut (List Nat) :=
  match decode_string_loop [first_char] input with
  | .ok digits rest =>
    match parseUsize digits with
    | some n =>
      if rest.length < n then .err DecodeError.IOFailure
      else .ok (rest.take n) (rest.drop n)
    | none => .panic
  | .err e => .err e
  | .panic => .panic

/-- The `loop` in `decode_integer`: push digit chars until an `e` is read;
any other char is an invalid-number error; end of input is an I/O failure. -/
def decode_integer_loop (acc : List Nat) : List Nat → DOut (List Nat)
  | [] => .err DecodeError.IOFailure
  | c :: rest =>
    if isDigitByte c then decode_integer_loop (acc ++ [c]) rest
    else if c = 101 then .ok acc rest
    else .err (DecodeError.InvalidNumberInteger c)

/-- Shared tail of `decode_integer`: text starts as `[first, second]`, the
loop accumulates further digits up to the terminating `e`, and the final
`text.parse().unwrap()` panics when the text is not valid `i64` syntax. -/
def decode_integer_tail (first second : Nat) (rest : List Nat) : DOut Int :=
  match decode_integer_loop [first, second] rest with
  | .ok text rest2 =>
    match parseI64 text with
    | some v => .ok v rest2
    | none => .panic
  | .err e => .err e
  | .panic => .panic

/-- `decode_integer` in src/lib.rs: reads two chars ahead; `0` must be
followed by `e` (value 0) else leading-zero error; `-` must not be followed
by `0` (negative-zero error); a single char followed by `e` is parsed alone;
otherwise both chars start the digit loop. -/
def decode_integer (input : List Nat) : DOut Int :=
  match input with
  | [] => .err DecodeError.IOFailure
  | [_] => .err DecodeError.IOFailure
  | first :: second :: rest =>
    if first = 48 then
      if second = 101 then .ok 0 rest else .err DecodeError.LeadingZeroInteger
    else if first = 45 then
      if second = 48 then .err DecodeError.NegativeZeroInteger
      else decode_integer_tail first second rest
    else
      if second = 101 then
        match parseI64 [first] with
        | some v => .ok v rest
        | none => .panic
      else decode_integer_tail first second rest

/-- `HashMap::insert`: replace the value of an existing key, else add the
binding.  The association list carries at most one entry per key. -/
def dictInsert (k : List Nat) (v : Bencoding) :
    List (List Nat × Bencoding) → List (List Nat × Bencoding)
  | [] => [(k, v)]
  | (k', v') :: rest =>
    if k' = k then (k, v) :: rest else (k', v') :: dictInsert k v rest

/-- Lookup in the association-list model of the `HashMap`. -/
def dictLookup (k : List Nat) : List (List Nat × Bencoding) → Option Bencoding
  | [] => none
  | (k', v') :: rest => if k' = k then some v' else dictLookup k rest

mutual

/-- `decode` in src/lib.rs: read one marker byte and dispatch.  The extra
`fuel` argument only bounds the recursion depth of the shallow embedding;
every recursive call consumes input, so any fuel larger than twice the input
length is enough, and `fuelFor` below always supplies that much. -/
def decode : Nat → List Nat → DOut DecodeTypes
  | 0, _ => .panic
  | _ + 1, [] => .err DecodeError.IOFailure
  | fuel + 1, c :: rest =>
    if isDigitByte c then
      DOut.map (fun s => DecodeTypes.Bencoding (Bencoding.String s)) (decode_string c rest)
    else if c = 105 then
      DOut.map (fun i => DecodeTypes.Bencoding (Bencoding.Integer i)) (decode_integer rest)
    else if c = 108 then
      DOut.map (fun l => DecodeTypes.Bencoding (Bencoding.List l)) (decode_list fuel [] rest)
    else if c = 100 then
      DOut.map (fun d => DecodeTypes.Bencoding (Bencoding.Dictionary d)) (decode_dict fuel [] rest)
    else if c = 101 then
      DOut.ok DecodeTypes.EndMarker rest
    else
      DOut.err (DecodeError.UnknownSymbol c)

/-- `decode_list` in src/lib.rs: repeatedly decode; append each value in
order; the first end marker stops the loop without being appended. -/
def decode_list : Nat → List Bencoding → List Nat → DOut (List Bencoding)
  | 0, _, _ => .panic
  | fuel + 1, acc, input =>
    match decode fuel input with
    | .ok (DecodeTypes.Bencoding b) rest => decode_list fuel (acc ++ [b]) rest
    | .ok DecodeTypes.EndMarker rest => .ok acc rest
    | .err e => .err e
    | .panic => .panic

/-- `decode_dict` in src/lib.rs: decode a key (must be a `String`, an end
marker completes the dictionary), then a value (an end marker there is the
unknown-symbol error for `e`), and insert the pair. -/
def decode_dict : Nat → List (List Nat × Bencoding) → List Nat →
    DOut (List (List Nat × Bencoding))
  | 0, _, _ => .panic
  | fuel + 1, acc, input =>
    match decode fuel input with
    | .ok (DecodeTypes.Bencoding (Bencoding.String s)) rest =>
      (match decode fuel rest with
       | .ok (DecodeTypes.Bencoding b) rest2 => decode_dict fuel (dictInsert s b acc) rest2
       | .ok DecodeTypes.EndMarker _ => .err (DecodeError.UnknownSymbol 101)
       | .err e => .err e
       | .panic => .panic)
    | .ok (DecodeTypes.Bencoding b) _ => .err (DecodeError.KeyNotStringDictionary b)
    | .ok DecodeTypes.EndMarker rest => .ok acc rest
    | .err e => .err e
    | .panic => .panic

end

/-- Fuel that is always sufficient for `decode` on `bytes`: every call to
`decode` consumes at least one byte before recursing, and at most one
aggregate loop frame sits between consecutive `decode` calls. -/
def fuelFor (bytes : List Nat) : Nat := 2 * bytes.length + 2

/-- `Bencoding::import` in src/lib.rs: run `decode`; an end marker at top
level is the unknown-symbol error for `e`.  The leftover bytes in the `ok`
case model the reader position after the call. -/
def Bencoding.«import» (bytes : Bytes) : DOut Bencoding :=
  match decode (fuelFor bytes) bytes with
  | .ok (DecodeTypes.Bencoding b) rest => .ok b rest
  | .ok DecodeTypes.EndMarker _ => .err (DecodeError.UnknownSymbol 101)
  | .err e => .err e
  | .panic => .panic

/-- `true` exactly on the I/O-failure outcome. -/
def isIOFailure : DOut Bencoding → Bool
  | .err DecodeError.IOFailure => true
  | _ => false

/-- Bytes of the input `4:spam`. -/
def fx_spam : List Nat := [52, 58, 115, 112, 97, 109]

/-- Bytes of the input `i3e`. -/
def fx_i3e : List Nat := [105, 51, 101]

/-- Bytes of the input `i-3e`. -/
def fx_im3e : List Nat := [105, 45, 51, 101]

/-- Bytes of the input `i0e`. -/
def fx_i0e : List Nat := [105, 48, 101]

/-- Bytes of the input `le`. -/
def fx_le : List Nat := [108, 101]

/-- Bytes of the input `l9:bencoding2:is3:fune`. -/
def fx_list : List Nat :=
  [108, 57, 58, 98, 101, 110, 99, 111, 100, 105, 110, 103, 50, 58, 105, 115, 51, 58, 102,
   117, 110, 101]

/-- Bytes of the input `d4:spaml1:a1:bee`. -/
def fx_dict : List Nat :=
  [100, 52, 58, 115, 112, 97, 109, 108, 49, 58, 97, 49, 58, 98, 101, 101]

/-- Bytes of the input `de`. -/
def fx_de : List Nat := [100, 101]

/-- Bytes of the input `0:`. -/
def fx_zero : List Nat := [48, 58]

/-- Bytes of the input `i03e`. -/
def fx_i03e : List Nat := [105, 48, 51, 101]

/-- Bytes of the input `i-0e`. -/
def fx_im0e : List Nat := [105, 45, 48, 101]

/-- Bytes of the input `ix e` (with a space between `x` and `e`). -/
def fx_ixe : List Nat := [105, 120, 32, 101]

/-- Bytes of the input `3x:abc`. -/
def fx_3xabc : List Nat := [51, 120, 58, 97, 98, 99]

/-- Bytes of the input `e`. -/
def fx_e : List Nat := [101]

/-- Bytes of the input `d4:spami1e4:spami2ee` (key `spam` encoded twice). -/
def fx_dupkey : List Nat :=
  [100, 52, 58, 115, 112, 97, 109, 105, 49, 101, 52, 58, 115, 112, 97, 109, 105, 50, 101,
   101]

/-- Bytes of the input `di1ei2ee` (integer in a dictionary key slot). -/
def fx_dintkey : List Nat := [100, 105, 49, 101, 105, 50, 101, 101]

/-- Bytes of the input `dlei2ee` (list in a dictionary key slot). -/
def fx_dlistkey : List Nat := [100, 108, 101, 105, 50, 101, 101]

/-- Bytes of the input `d4:spame` (end marker in a dictionary value slot). -/
def fx_dspame : List Nat := [100, 52, 58, 115, 112, 97, 109, 101]

/-- The valid fixtures of the grammar, used for the truncation property. -/
def validFixtures : List (List Nat) :=
  [fx_spam, fx_i3e, fx_im3e, fx_i0e, fx_le, fx_list, fx_dict, fx_de, fx_zero]

/-- Claim C1: each literal grammar fixture decodes to exactly the expected
value: `4:spam` to the byte string `spam`, `i3e` to 3, `i-3e` to -3, `i0e`
to 0, `le` to the empty list, `l9:bencoding2:is3:fune` to the list of the
three byte strings, and `d4:spaml1:a1:bee` to the dictionary mapping `spam`
to the list of byte strings `a`, `b`. -/
theorem import_literal_fixtures :
    Bencoding.«import» fx_spam = .ok (.String [115, 112, 97, 109]) []
    ∧ Bencoding.«import» fx_i3e = .ok (.Integer 3) []
    ∧ Bencoding.«import» fx_im3e = .ok (.Integer (-3)) []
    ∧ Bencoding.«import» fx_i0e = .ok (.Integer 0) []
    ∧ Bencoding.«import» fx_le = .ok (.List []) []
    ∧ Bencoding.«import» fx_list =
        .ok (.List [.String [98, 101, 110, 99, 111, 100, 105, 110, 103],
          .String [105, 115], .String [102, 117, 110]]) []
    ∧ Bencoding.«import» fx_dict =
        .ok (.Dictionary [([115, 112, 97, 109], .List [.String [97], .String [98]])]) [] :=
  ⟨rfl, rfl, rfl, rfl, rfl, rfl, rfl⟩

/-- Claim C2 (code bug): the spec says `ix e` fails with the invalid-number
error carrying `x`, but the decoder never validates the first two characters
of an integer body; on `ix e` the accumulated text `x ` reaches
`text.parse::<i64>().unwrap()`, which panics.  The string-length half of the
claim does hold: `3x:abc` fails with invalid-number carrying `x` (120). -/
theorem integer_invalid_first_chars_panic :
    Bencoding.«import» fx_ixe = .panic
    ∧ Bencoding.«import» fx_3xabc = .err (.InvalidNumberInteger 120) :=
  ⟨rfl, rfl⟩

/-- Claim C3: after `i`, a first character `0` demands an immediate `e`
(value exactly zero) and anything else is the leading-zero error; a first
character `-` followed by `0` is the negative-zero error; concretely `i03e`
fails with leading-zero and `i-0e` with negative-zero. -/
theorem integer_zero_and_negative_zero_rules :
    (∀ c rest, c ≠ 101 →
      decode_integer (48 :: c :: rest) = .err DecodeError.LeadingZeroInteger)
    ∧ (∀ rest, decode_integer (48 :: 101 :: rest) = .ok 0 rest)
    ∧ (∀ rest, decode_integer (45 :: 48 :: rest) = .err DecodeError.NegativeZeroInteger)
    ∧ Bencoding.«import» fx_i03e = .err DecodeError.LeadingZeroInteger
    ∧ Bencoding.«import» fx_im0e = .err DecodeError.NegativeZeroInteger := by
  refine ⟨?_, ?_, ?_, rfl, rfl⟩
  · intro c rest h
    simp [decode_integer, h]
  · intro rest
    simp [decode_integer]
  · intro rest
    simp [decode_integer]

/-- Witness for C3 at `c = 51`, `rest = [101]`. -/
theorem integer_zero_and_negative_zero_rules_witness :
    decode_integer (48 :: 51 :: [101]) = .err DecodeError.LeadingZeroInteger :=
  integer_zero_and_negative_zero_rules.1 51 [101] (by decide)

/-- Claim C4: an end marker where a value is required is the unknown-symbol
error carrying `e` (byte 101): a bare top-level `e` fails that way, the
`EndMarker` sentinel is never returned by the entry point, and an end marker
in a dictionary value slot fails the same way. -/
theorem end_marker_never_a_value :
    Bencoding.«import» fx_e = .err (DecodeError.UnknownSymbol 101)
    ∧ Bencoding.«import» fx_dspame = .err (DecodeError.UnknownSymbol 101)
    ∧ (∀ bytes rest, decode (fuelFor bytes) bytes = .ok DecodeTypes.EndMarker rest →
        Bencoding.«import» bytes = .err (DecodeError.UnknownSymbol 101)) := by
  refine ⟨rfl, rfl, ?_⟩
  intro bytes rest h
  simp [Bencoding.«import», h]

/-- Witness for C4 at `bytes = [101]`, `rest = []`. -/
theorem end_marker_never_a_value_witness :
    Bencoding.«import» [101] = .err (DecodeError.UnknownSymbol 101) :=
  end_marker_never_a_value.2.2 [101] [] (by rfl)

/-- Claim C5: a duplicated dictionary key keeps a single entry holding the
value of the last occurrence and raises no error: concretely
`d4:spami1e4:spami2ee` decodes to the one-entry dictionary `spam ↦ 2`, and
in general `dictInsert` (the model of `HashMap::insert`) overwrites the
existing binding for the key and leaves other keys unchanged. -/
theorem dict_duplicate_key_last_write_wins :
    Bencoding.«import» fx_dupkey = .ok (.Dictionary [([115, 112, 97, 109], .Integer 2)]) []
    ∧ (∀ k v d, dictLookup k (dictInsert k v d) = some v)
    ∧ (∀ k k' v d, k' ≠ k → dictLookup k' (dictInsert k v d) = dictLookup k' d) := by
  refine ⟨rfl, ?_, ?_⟩
  · intro k v d
    induction d with
    | nil => simp [dictInsert, dictLookup]
    | cons hd tl ih =>
      obtain ⟨k₁, v₁⟩ := hd
      by_cases hk : k₁ = k
      · simp [dictInsert, dictLookup, hk]
      · simp [dictInsert, dictLookup, hk, ih]
  · intro k k' v d hne
    induction d with
    | nil => simp [dictInsert, dictLookup, Ne.symm hne]
    | cons hd tl ih =>
      obtain ⟨k₁, v₁⟩ := hd
      by_cases hk : k₁ = k
      · subst hk
        simp [dictInsert, dictLookup, Ne.symm hne]
      · simp [dictInsert, dictLookup, hk, ih]

/-- Witness for C5 at `k = [1]`, `k' = [2]`, `v = Integer 1`, `d = []`. -/
theorem dict_duplicate_key_last_write_wins_witness :
    dictLookup [2] (dictInsert [1] (.Integer 1) []) = dictLookup [2] [] :=
  dict_duplicate_key_last_write_wins.2.2 [1] [2] (.Integer 1) [] (by decide)

/-- Claim C6: a dictionary key slot that decodes to a non-string value fails
with the key-not-a-string error carrying that value: concretely `di1ei2ee`
carries `Integer 1` and `dlei2ee` carries the empty `List`; in general, any
decoded key that is not a `String` produces exactly that error. -/
theorem dict_key_not_string_error :
    Bencoding.«import» fx_dintkey = .err (DecodeError.KeyNotStringDictionary (.Integer 1))
    ∧ Bencoding.«import» fx_dlistkey = .err (DecodeError.KeyNotStringDictionary (.List []))
    ∧ (∀ fuel acc input b rest,
        decode fuel input = .ok (DecodeTypes.Bencoding b) rest →
        (∀ s, b ≠ Bencoding.String s) →
        decode_dict (fuel + 1) acc input = .err (DecodeError.KeyNotStringDictionary b)) := by
  refine ⟨rfl, rfl, ?_⟩
  intro fuel acc input b rest h hb
  cases b with
  | String s => exact absurd rfl (hb s)
  | Integer i => simp [decode_dict, h]
  | List l => simp [decode_dict, h]
  | Dictionary d => simp [decode_dict, h]

/-- Witness for C6 at `fuel = 1`, `input = i1e`. -/
theorem dict_key_not_string_error_witness :
    decode_dict 2 [] [105, 49, 101] = .err (DecodeError.KeyNotStringDictionary (.Integer 1)) :=
  dict_key_not_string_error.2.2 1 [] [105, 49, 101] (.Integer 1) [] (by rfl) (by
    intro s hs
    cases hs)

/-- Claim C7: list decoding appends each decoded value in input order, the
first end marker stops the loop without being appended (consuming exactly
that one marker), and `le` decodes to the empty list. -/
theorem list_decoding_order_and_termination :
    Bencoding.«import» fx_le = .ok (.List []) []
    ∧ (∀ fuel acc input b rest,
        decode fuel input = .ok (DecodeTypes.Bencoding b) rest →
        decode_list (fuel + 1) acc input = decode_list fuel (acc ++ [b]) rest)
    ∧ (∀ fuel acc input rest,
        decode fuel input = .ok DecodeTypes.EndMarker rest →
        decode_list (fuel + 1) acc input = .ok acc rest) := by
  refine ⟨rfl, ?_, ?_⟩
  · intro fuel acc input b rest h
    simp [decode_list, h]
  · intro fuel acc input rest h
    simp [decode_list, h]

/-- Witness for C7 at `fuel = 1`, `acc = []`, `input = [101]`. -/
theorem list_decoding_order_and_termination_witness :
    decode_list 2 [] [101] = .ok [] [] :=
  list_decoding_order_and_termination.2.2 1 [] [101] [] (by rfl)

/-- Claim C8: truncating any valid fixture by one or more trailing bytes
makes the decode fail with the I/O failure error, never return a short
value. -/
theorem truncation_io_failure :
    ∀ f ∈ validFixtures, ∀ n < f.length,
      isIOFailure (Bencoding.«import» (f.take n)) = true := by
  decide

/-- Witness for C8 at the fixture `4:spam` truncated to 3 bytes. -/
theorem truncation_io_failure_witness :
    isIOFailure (Bencoding.«import» (fx_spam.take 3)) = true :=
  truncation_io_failure fx_spam (by decide) 3 (by decide)

/-- Claim C9: decoding is deterministic on failures: two runs of the import
operation on the same bytes produce the same error. -/
theorem decode_failure_deterministic :
    ∀ bytes e₁ e₂, Bencoding.«import» bytes = .err e₁ →
      Bencoding.«import» bytes = .err e₂ → e₁ = e₂ := by
  intro bytes e₁ e₂ h₁ h₂
  rw [h₁] at h₂
  injection h₂

/-- Witness for C9 at `bytes = [101]`. -/
theorem decode_failure_deterministic_witness :
    DecodeError.UnknownSymbol 101 = DecodeError.UnknownSymbol 101 :=
  decode_failure_deterministic [101] (DecodeError.UnknownSymbol 101)
    (DecodeError.UnknownSymbol 101) (by rfl) (by rfl)

/-- A mapped outcome is `ok` exactly when the underlying outcome is. -/
theorem DOut.map_eq_ok {α β : Type} (f : α → β) (x : DOut α) (r : β) (rest : List Nat) :
    DOut.map f x = .ok r rest ↔ ∃ a, x = .ok a rest ∧ r = f a := by
  cases x <;> simp [DOut.map]
  aesop

/-- The length-text loop never reads past the terminating `:`: extra bytes
after the input survive untouched in the leftover. -/
theorem decode_string_loop_frame (input : List Nat) : ∀ acc digits rest extra,
    decode_string_loop acc input = .ok digits rest →
    decode_string_loop acc (input ++ extra) = .ok digits (rest ++ extra) := by
  induction input with
  | nil =>
    intro acc digits rest extra h
    exact absurd h (by simp [decode_string_loop])
  | cons c tl ih =>
    intro acc digits rest extra h
    simp only [decode_string_loop, List.cons_append] at h ⊢
    by_cases hd : isDigitByte c
    · simp only [hd, if_true] at h ⊢
      exact ih _ _ _ _ h
    · simp only [hd, if_false, Bool.false_eq_true] at h ⊢
      by_cases hc : c = 58
      · simp only [hc, if_true] at h ⊢
        cases h
        rfl
      · simp only [hc, if_false] at h
        exact DOut.noConfusion h

/-- The integer-digit loop never reads past the terminating `e`. -/
theorem decode_integer_loop_frame (input : List Nat) : ∀ acc text rest extra,
    decode_integer_loop acc input = .ok text rest →
    decode_integer_loop acc (input ++ extra) = .ok text (rest ++ extra) := by
  induction input with
  | nil =>
    intro acc text rest extra h
    exact absurd h (by simp [decode_integer_loop])
  | cons c tl ih =>
    intro acc text rest extra h
    simp only [decode_integer_loop, List.cons_append] at h ⊢
    by_cases hd : isDigitByte c
    · simp only [hd, if_true] at h ⊢
      exact ih _ _ _ _ h
    · simp only [hd, if_false, Bool.false_eq_true] at h ⊢
      by_cases hc : c = 101
      · simp only [hc, if_true] at h ⊢
        cases h
        rfl
      · simp only [hc, if_false] at h
        exact DOut.noConfusion h

/-- `decode_string` reads exactly the length text and the announced payload;
bytes beyond them are left in the stream. -/
theorem decode_string_frame (first : Nat) (input s rest extra : List Nat)
    (h : decode_string first input = .ok s rest) :
    decode_string first (input ++ extra) = .ok s (rest ++ extra) := by
  unfold decode_string at h ⊢
  cases hl : decode_string_loop [first] input with
  | ok digits rest0 =>
    simp only [hl] at h
    simp only [decode_string_loop_frame input [first] digits rest0 extra hl]
    cases hp : parseUsize digits with
    | some n =>
      simp only [hp] at h ⊢
      by_cases hlen : rest0.length < n
      · rw [if_pos hlen] at h
        exact DOut.noConfusion h
      · rw [if_neg hlen] at h
        have hle : n ≤ rest0.length := Nat.le_of_not_lt hlen
        cases h
        rw [if_neg (by rw [List.length_append]; omega)]
        rw [List.take_append_of_le_length hle, List.drop_append_of_le_length hle]
    | none =>
      simp only [hp] at h
      exact DOut.noConfusion h
  | err e =>
    simp only [hl] at h
    exact DOut.noConfusion h
  | panic =>
    simp only [hl] at h
    exact DOut.noConfusion h

/-- The tail of `decode_integer` stops at its terminating `e`. -/
theorem decode_integer_tail_frame (first second : Nat) (input : List Nat) (v : Int)
    (rest extra : List Nat) (h : decode_integer_tail first second input = .ok v rest) :
    decode_integer_tail first second (input ++ extra) = .ok v (rest ++ extra) := by
  unfold decode_integer_tail at h ⊢
  cases hl : decode_integer_loop [first, second] input with
  | ok text rest0 =>
    simp only [hl] at h
    simp only [decode_integer_loop_frame input [first, second] text rest0 extra hl]
    cases hp : parseI64 text with
    | some w =>
      simp only [hp] at h ⊢
      cases h
      rfl
    | none =>
      simp only [hp] at h
      exact DOut.noConfusion h
  | err e =>
    simp only [hl] at h
    exact DOut.noConfusion h
  | panic =>
    simp only [hl] at h
    exact DOut.noConfusion h

/-- `decode_integer` stops at its terminating `e`: extra bytes after the
input survive untouched. -/
theorem decode_integer_frame : ∀ input (v : Int) rest extra,
    decode_integer input = .ok v rest →
    decode_integer (input ++ extra) = .ok v (rest ++ extra) := by
  intro input v rest extra h
  cases input with
  | nil => exact absurd h (by simp [decode_integer])
  | cons first tl =>
    cases tl with
    | nil => exact absurd h (by simp [decode_integer])
    | cons second tl2 =>
      simp only [decode_integer, List.cons_append] at h ⊢
      by_cases h0 : first = 48
      · rw [if_pos h0] at h ⊢
        by_cases he : second = 101
        · rw [if_pos he] at h ⊢
          cases h
          rfl
        · rw [if_neg he] at h
          exact DOut.noConfusion h
      · rw [if_neg h0] at h ⊢
        by_cases hm : first = 45
        · rw [if_pos hm] at h ⊢
          by_cases hz : second = 48
          · rw [if_pos hz] at h
            exact DOut.noConfusion h
          · rw [if_neg hz] at h ⊢
            exact decode_integer_tail_frame first second tl2 v rest extra h
        · rw [if_neg hm] at h ⊢
          by_cases he : second = 101
          · rw [if_pos he] at h ⊢
            cases hp : parseI64 [first] with
            | some w =>
              simp only [hp] at h ⊢
              cases h
              rfl
            | none =>
              simp only [hp] at h
              exact DOut.noConfusion h
          · rw [if_neg he] at h ⊢
            exact decode_integer_tail_frame first second tl2 v rest extra h

/-- Frame property of the three mutually recursive decoders at a fixed fuel:
a successful decode is unaffected by bytes appended after its input, and the
appended bytes reappear untouched at the end of the leftover. -/
theorem decode_frame_all : ∀ fuel,
    (∀ input r rest extra, decode fuel input = .ok r rest →
      decode fuel (input ++ extra) = .ok r (rest ++ extra))
    ∧ (∀ acc input r rest extra, decode_list fuel acc input = .ok r rest →
      decode_list fuel acc (input ++ extra) = .ok r (rest ++ extra))
    ∧ (∀ acc input r rest extra, decode_dict fuel acc input = .ok r rest →
      decode_dict fuel acc (input ++ extra) = .ok r (rest ++ extra)) := by
  intro fuel
  induction fuel with
  | zero =>
    refine ⟨?_, ?_, ?_⟩
    · intro input r rest extra h
      simp [decode] at h
    · intro acc input r rest extra h
      simp [decode_list] at h
    · intro acc input r rest extra h
      simp [decode_dict] at h
  | succ fuel ih =>
    obtain ⟨ihd, ihl, ihD⟩ := ih
    refine ⟨?_, ?_, ?_⟩
    · intro input r rest extra h
      cases input with
      | nil => simp [decode] at h
      | cons c tl =>
        simp only [decode, List.cons_append] at h ⊢
        by_cases hdg : isDigitByte c
        · rw [if_pos hdg] at h ⊢
          rw [DOut.map_eq_ok] at h
          obtain ⟨s, hs, hr⟩ := h
          rw [decode_string_frame c tl s rest extra hs]
          simp [DOut.map, hr]
        · rw [if_neg hdg] at h ⊢
          by_cases hi : c = 105
          · rw [if_pos hi] at h ⊢
            rw [DOut.map_eq_ok] at h
            obtain ⟨i, hi2, hr⟩ := h
            rw [decode_integer_frame tl i rest extra hi2]
            simp [DOut.map, hr]
          · rw [if_neg hi] at h ⊢
            by_cases hL : c = 108
            · rw [if_pos hL] at h ⊢
              rw [DOut.map_eq_ok] at h
              obtain ⟨l, hl2, hr⟩ := h
              rw [ihl [] tl l rest extra hl2]
              simp [DOut.map, hr]
            · rw [if_neg hL] at h ⊢
              by_cases hD : c = 100
              · rw [if_pos hD] at h ⊢
                rw [DOut.map_eq_ok] at h
                obtain ⟨d, hd2, hr⟩ := h
                rw [ihD [] tl d rest extra hd2]
                simp [DOut.map, hr]
              · rw [if_neg hD] at h ⊢
                by_cases hE : c = 101
                · rw [if_pos hE] at h ⊢
                  cases h
                  rfl
                · rw [if_neg hE] at h
                  exact DOut.noConfusion h
    · intro acc input r rest extra h
      simp only [decode_list] at h ⊢
      cases hd : decode fuel input with
      | ok t rest0 =>
        simp only [hd] at h
        simp only [ihd input t rest0 extra hd]
        cases t with
        | Bencoding b => exact ihl (acc ++ [b]) rest0 r rest extra h
        | EndMarker =>
          cases h
          rfl
      | err e =>
        simp only [hd] at h
        exact DOut.noConfusion h
      | panic =>
        simp only [hd] at h
        exact DOut.noConfusion h
    · intro acc input r rest extra h
      simp only [decode_dict] at h ⊢
      cases hd : decode fuel input with
      | ok t rest0 =>
        simp only [hd] at h
        simp only [ihd input t rest0 extra hd]
        cases t with
        | Bencoding b =>
          cases b with
          | String s =>
            cases hd2 : decode fuel rest0 with
            | ok t2 rest2 =>
              simp only [hd2] at h
              simp only [ihd rest0 t2 rest2 extra hd2]
              cases t2 with
              | Bencoding b2 => exact ihD (dictInsert s b2 acc) rest2 r rest extra h
              | EndMarker => exact DOut.noConfusion h
            | err e =>
              simp only [hd2] at h
              exact DOut.noConfusion h
            | panic =>
              simp only [hd2] at h
              exact DOut.noConfusion h
          | Integer i => exact DOut.noConfusion h
          | List l => exact DOut.noConfusion h
          | Dictionary d => exact DOut.noConfusion h
        | EndMarker =>
          cases h
          rfl
      | err e =>
        simp only [hd] at h
        exact DOut.noConfusion h
      | panic =>
        simp only [hd] at h
        exact DOut.noConfusion h

/-- Raising the fuel bound by one preserves any successful decode. -/
theorem decode_mono_all : ∀ fuel,
    (∀ input r rest, decode fuel input = .ok r rest → decode (fuel + 1) input = .ok r rest)
    ∧ (∀ acc input r rest, decode_list fuel acc input = .ok r rest →
        decode_list (fuel + 1) acc input = .ok r rest)
    ∧ (∀ acc input r rest, decode_dict fuel acc input = .ok r rest →
        decode_dict (fuel + 1) acc input = .ok r rest) := by
  intro fuel
  induction fuel with
  | zero =>
    refine ⟨?_, ?_, ?_⟩
    · intro input r rest h
      simp [decode] at h
    · intro acc input r rest h
      simp [decode_list] at h
    · intro acc input r rest h
      simp [decode_dict] at h
  | succ fuel ih =>
    obtain ⟨ihd, ihl, ihD⟩ := ih
    refine ⟨?_, ?_, ?_⟩
    · intro input r rest h
      cases input with
      | nil => simp [decode] at h ⊢
      | cons c tl =>
        simp only [decode] at h ⊢
        by_cases hdg : isDigitByte c
        · rw [if_pos hdg] at h ⊢
          exact h
        · rw [if_neg hdg] at h ⊢
          by_cases hi : c = 105
          · rw [if_pos hi] at h ⊢
            exact h
          · rw [if_neg hi] at h ⊢
            by_cases hL : c = 108
            · rw [if_pos hL] at h ⊢
              rw [DOut.map_eq_ok] at h ⊢
              obtain ⟨l, hl2, hr⟩ := h
              exact ⟨l, ihl [] tl l rest hl2, hr⟩
            · rw [if_neg hL] at h ⊢
              by_cases hD : c = 100
              · rw [if_pos hD] at h ⊢
                rw [DOut.map_eq_ok] at h ⊢
                obtain ⟨d, hd2, hr⟩ := h
                exact ⟨d, ihD [] tl d rest hd2, hr⟩
              · rw [if_neg hD] at h ⊢
                exact h
    · intro acc input r rest h
      simp only [decode_list] at h ⊢
      cases hd : decode fuel input with
      | ok t rest0 =>
        simp only [hd] at h
        simp only [ihd input t rest0 hd]
        cases t with
        | Bencoding b => exact ihl (acc ++ [b]) rest0 r rest h
        | EndMarker => exact h
      | err e =>
        simp only [hd] at h
        exact DOut.noConfusion h
      | panic =>
        simp only [hd] at h
        exact DOut.noConfusion h
    · intro acc input r rest h
      simp only [decode_dict] at h ⊢
      cases hd : decode fuel input with
      | ok t rest0 =>
        simp only [hd] at h
        simp only [ihd input t rest0 hd]
        cases t with
        | Bencoding b =>
          cases b with
          | String s =>
            cases hd2 : decode fuel rest0 with
            | ok t2 rest2 =>
              simp only [hd2] at h
              simp only [ihd rest0 t2 rest2 hd2]
              cases t2 with
              | Bencoding b2 => exact ihD (dictInsert s b2 acc) rest2 r rest h
              | EndMarker => exact h
            | err e =>
              simp only [hd2] at h
              exact DOut.noConfusion h
            | panic =>
              simp only [hd2] at h
              exact DOut.noConfusion h
          | Integer i => exact h
          | List l => exact h
          | Dictionary d => exact h
        | EndMarker => exact h
      | err e =>
        simp only [hd] at h
        exact DOut.noConfusion h
      | panic =>
        simp only [hd] at h
        exact DOut.noConfusion h

/-- Raising the fuel bound by any amount preserves a successful decode. -/
theorem decode_mono_add (d : Nat) : ∀ fuel input r rest,
    decode fuel input = .ok r rest → decode (fuel + d) input = .ok r rest := by
  induction d with
  | zero =>
    intro fuel input r rest h
    exact h
  | succ d ihadd =>
    intro fuel input r rest h
    exact (decode_mono_all (fuel + d)).1 input r rest (ihadd fuel input r rest h)

/-- Claim C10 (implicit frame property): the top-level decode reads only the
bytes of the first complete encoded value; for any stream whose prefix
decodes successfully, appended bytes change neither the returned value nor
the success of the call, and they reappear unread at the end of the
leftover, so the cursor sits immediately after the consumed encoding. -/
theorem import_frame_unread_suffix :
    ∀ bytes v rest extra, Bencoding.«import» bytes = .ok v rest →
      Bencoding.«import» (bytes ++ extra) = .ok v (rest ++ extra) := by
  intro bytes v rest extra h
  unfold Bencoding.«import» at h ⊢
  cases hd : decode (fuelFor bytes) bytes with
  | ok t rest0 =>
    simp only [hd] at h
    cases t with
    | Bencoding b =>
      cases h
      have hf := (decode_frame_all (fuelFor bytes)).1 bytes (DecodeTypes.Bencoding v)
        rest extra hd
      have hm : decode (fuelFor (bytes ++ extra)) (bytes ++ extra)
          = .ok (DecodeTypes.Bencoding v) (rest ++ extra) := by
        have he : fuelFor (bytes ++ extra) = fuelFor bytes + 2 * extra.length := by
          simp [fuelFor, List.length_append]
          omega
        rw [he]
        exact decode_mono_add (2 * extra.length) (fuelFor bytes) (bytes ++ extra)
          (DecodeTypes.Bencoding v) (rest ++ extra) hf
      simp only [hm]
    | EndMarker => exact DOut.noConfusion h
  | err e =>
    simp only [hd] at h
    exact DOut.noConfusion h
  | panic =>
    simp only [hd] at h
    exact DOut.noConfusion h

/-- Witness for C10: appending the byte `x` (120) after `i3e`. -/
theorem import_frame_unread_suffix_witness :
    Bencoding.«import» (fx_i3e ++ [120]) = .ok (.Integer 3) ([] ++ [120]) :=
  import_frame_unread_suffix fx_i3e (.Integer 3) [] [120] (by rfl)
